import Mathlib

/-!
Verification development for the bin.ary binary-analysis tool.

The JavaScript sources are shallowly embedded: JS `BigInt` values are
modelled as `Int` (or `Nat` where the source guarantees non-negative
values), JS two's-complement bitwise operators on possibly-negative
`BigInt`s are modelled by the `js*` helpers below, and mutable objects
become explicit state records.  JS `Map`/object-literal stores are
modelled as association lists that preserve the source's insertion-order
semantics (`Map.set` replaces in place, otherwise appends).
-/

/-! ## Generic JS-style helpers -/

/-- ASCII lower-casing of one character, as `String.prototype.toLowerCase`
acts on the ASCII inputs this code base feeds it. -/
def jsLowerChar (c : Char) : Char :=
  if 'A' ≤ c ∧ c ≤ 'Z' then Char.ofNat (c.toNat + 32) else c

def jsLower (s : String) : String := ⟨s.data.map jsLowerChar⟩

def isWsChar (c : Char) : Bool :=
  c = ' ' ∨ c = '\t' ∨ c = '\n' ∨ c = '\r' ∨ c = Char.ofNat 11 ∨ c = Char.ofNat 12

/-- JS `String.prototype.trim` (ASCII whitespace suffices for this code base). -/
def jsTrim (s : String) : String :=
  ⟨(s.data.dropWhile isWsChar).reverse.dropWhile isWsChar |>.reverse⟩

def isDigitChar (c : Char) : Bool := '0' ≤ c ∧ c ≤ '9'

def isHexChar (c : Char) : Bool :=
  ('0' ≤ c ∧ c ≤ '9') ∨ ('a' ≤ c ∧ c ≤ 'f') ∨ ('A' ≤ c ∧ c ≤ 'F')

def hexCharVal (c : Char) : Nat :=
  if '0' ≤ c ∧ c ≤ '9' then c.toNat - '0'.toNat
  else if 'a' ≤ c ∧ c ≤ 'f' then c.toNat - 'a'.toNat + 10
  else if 'A' ≤ c ∧ c ≤ 'F' then c.toNat - 'A'.toNat + 10
  else 0

/-- Value of a list of hex digits (most significant first). -/
def hexVal (cs : List Char) : Nat := cs.foldl (fun a c => a * 16 + hexCharVal c) 0

/-- Value of a list of decimal digits. -/
def decVal (cs : List Char) : Nat := cs.foldl (fun a c => a * 10 + (c.toNat - '0'.toNat)) 0

/-- Hex digits of `n`, most significant first (fuel-driven so that it is
structurally recursive; 64 digits cover every value below `16^64`, far
beyond the 64-bit quantities this code base prints). -/
def natToHexAux : Nat → Nat → List Char
  | 0, _ => []
  | fuel + 1, n =>
    if n = 0 then []
    else natToHexAux fuel (n / 16) ++ [Nat.digitChar (n % 16)]

/-- JS `BigInt.prototype.toString(16)` / `Number.prototype.toString(16)` for
non-negative integral values: lowercase hex, no prefix. -/
def natToHex (n : Nat) : String := if n = 0 then "0" else ⟨natToHexAux 64 n⟩

/-- JS `String.prototype.padStart(len, '0')`. -/
def padStartZero (s : String) (len : Nat) : String :=
  ⟨List.replicate (len - s.data.length) '0' ++ s.data⟩

/-- Models `parseInt(s, 16)` on the strings this code base feeds it: optional
`0x`/`0X` prefix, then a maximal run of leading hex digits; `none` models
the `NaN` result (no digits). -/
def jsParseIntHex (s : String) : Option Nat :=
  let cs := s.data
  let cs := if ('0' :: 'x' :: []).isPrefixOf cs then cs.drop 2
            else if ('0' :: 'X' :: []).isPrefixOf cs then cs.drop 2
            else cs
  let digits := cs.takeWhile isHexChar
  if digits.isEmpty then none else some (hexVal digits)

/-! JS `BigInt` two's-complement bitwise operators, for possibly negative
operands (`~x = -x-1`; negative operands are handled through the identity
`x = -(m+1) ↔ x = ~m` and De Morgan, reducing to `Nat` bitwise ops). -/

def jsNot (a : Int) : Int := -a - 1

def jsAnd (a b : Int) : Int :=
  if a ≥ 0 then
    if b ≥ 0 then (a.toNat &&& b.toNat : Nat)
    else ((a.toNat ^^^ (a.toNat &&& (-b - 1).toNat) : Nat) : Int)
  else
    if b ≥ 0 then ((b.toNat ^^^ (b.toNat &&& (-a - 1).toNat) : Nat) : Int)
    else -(((-a - 1).toNat ||| (-b - 1).toNat : Nat) : Int) - 1

def jsOr (a b : Int) : Int :=
  if a ≥ 0 then
    if b ≥ 0 then (a.toNat ||| b.toNat : Nat)
    else -(((-b - 1).toNat ^^^ ((-b - 1).toNat &&& a.toNat) : Nat) : Int) - 1
  else
    if b ≥ 0 then -(((-a - 1).toNat ^^^ ((-a - 1).toNat &&& b.toNat) : Nat) : Int) - 1
    else -(((-a - 1).toNat &&& (-b - 1).toNat : Nat) : Int) - 1

def jsXor (a b : Int) : Int :=
  if a ≥ 0 then
    if b ≥ 0 then (a.toNat ^^^ b.toNat : Nat)
    else -((a.toNat ^^^ (-b - 1).toNat : Nat) : Int) - 1
  else
    if b ≥ 0 then -(((-a - 1).toNat ^^^ b.toNat : Nat) : Int) - 1
    else (((-a - 1).toNat ^^^ (-b - 1).toNat : Nat) : Int)

/-- JS `BigInt` `>>` (arithmetic shift = floor division). -/
def bigIntShr (v : Int) (k : Nat) : Int := Int.fdiv v (2 ^ k)

/-- JS `BigInt.asUintN(bits, v)`: the value modulo `2^bits`, non-negative. -/
def asUintN (bits : Nat) (v : Int) : Nat := (v % (2 ^ bits)).toNat

/-- Insertion-order association update: JS `Map.set` / object property
assignment (replace in place when the key exists, else append). -/
def assocSet {κ α : Type} [DecidableEq κ] :
    List (κ × α) → κ → α → List (κ × α)
  | [], k, v => [(k, v)]
  | (k', v') :: rest, k, v =>
    if k' = k then (k', v) :: rest else (k', v') :: assocSet rest k v

def assocGet? {κ α : Type} [DecidableEq κ] : List (κ × α) → κ → Option α
  | [], _ => none
  | (k', v') :: rest, k => if k' = k then some v' else assocGet? rest k

/-! ## Decoded instruction record (shared across all components) -/

structure Instruction where
  address : String
  bytes : String
  mnemonic : String
  operands : String
deriving DecidableEq

/-! ## Interpreter (simulator source file): register tables -/

namespace Sim

def R64 : List String :=
  ["rax","rbx","rcx","rdx","rsi","rdi","rsp","rbp",
   "r8","r9","r10","r11","r12","r13","r14","r15","rip"]

def R32 : List String :=
  ["eax","ebx","ecx","edx","esi","edi","esp","ebp",
   "r8d","r9d","r10d","r11d","r12d","r13d","r14d","r15d","eip"]

def R16 : List String :=
  ["ax","bx","cx","dx","si","di","sp","bp",
   "r8w","r9w","r10w","r11w","r12w","r13w","r14w","r15w","ip"]

def R8L : List String :=
  ["al","bl","cl","dl","sil","dil","spl","bpl",
   "r8b","r9b","r10b","r11b","r12b","r13b","r14b","r15b"]

def R8H : List String := ["ah","bh","ch","dh"]

/-- The three JS lookup objects `REG_MAP`/`REG_BITS`/`REG_SHIFT` fused into
one table of `(sub-register, parent, width, shift)` rows, built by the same
two loops as the source. -/
def regTable : List (String × String × Nat × Nat) :=
  ((List.range R64.length).flatMap fun i =>
    let r := R64.getD i ""
    [(r, r, 64, 0), (R32.getD i "", r, 32, 0), (R16.getD i "", r, 16, 0)] ++
    (if i < R8L.length then [(R8L.getD i "", r, 8, 0)] else [])) ++
  ((List.range R8H.length).flatMap fun i =>
    [(R8H.getD i "", ["rax","rbx","rcx","rdx"].getD i "", 8, 8)])

def regInfo (name : String) : Option (String × Nat × Nat) :=
  (regTable.find? fun row => row.1 = name).map (·.2)

def JCC_SET : List String :=
  ["jo","jno","js","jns","je","jne","jz","jnz",
   "jb","jnae","jc","jnb","jae","jnc","jbe","jna",
   "ja","jnbe","jl","jnge","jge","jnl","jle","jng",
   "jg","jnle","jp","jpe","jnp","jpo","jcxz","jecxz","jrcxz"]

/-! ### Register file -/

/-- JS `class Registers`: the `_r` store, one 64-bit slot per canonical
register.  Slots always hold values below `2^64` (they start at `0` and
`set` preserves the bound), which is why the JS arbitrary-precision
`old & ~(mask << shift)` may be modelled by masking with the 64-bit
complement. -/
structure Registers where
  _r : List (String × Nat)
deriving DecidableEq

def regsNew : Registers := ⟨R64.map fun r => (r, 0)⟩

def Registers.raw (rs : Registers) (p : String) : Nat :=
  (assocGet? rs._r p).getD 0

def Registers.get (rs : Registers) (name : String) : Nat :=
  let name := jsLower name
  match regInfo name with
  | none => 0
  | some (p, bits, shift) =>
    let mask := 2 ^ bits - 1
    (rs.raw p >>> shift) &&& mask

def Registers.set (rs : Registers) (name : String) (val : Int) : Registers :=
  let name := jsLower name
  match regInfo name with
  | none => rs
  | some (p, bits, shift) =>
    let mask := 2 ^ bits - 1
    -- JS: this._r[p] = (this._r[p] & ~(mask << shift)) | ((val & mask) << shift)
    let clr := (2 ^ 64 - 1) ^^^ (mask <<< shift)
    let v := (rs.raw p &&& clr) ||| (((val % (2 ^ bits)).toNat) <<< shift)
    -- 32-bit writes zero-extend in 64-bit mode
    let v := if bits = 32 then v &&& 0xFFFFFFFF else v
    ⟨assocSet rs._r p v⟩

/-! ### Flags -/

structure Flags where
  cf : Bool
  zf : Bool
  sf : Bool
  of : Bool
  pf : Bool
  af : Bool
deriving DecidableEq

def flagsNew : Flags := ⟨false, false, false, false, false, false⟩

def Flags.parity (n : Nat) : Bool :=
  let x := n % 256
  let x := x ^^^ (x >>> 4)
  let x := x ^^^ (x >>> 2)
  let x := x ^^^ (x >>> 1)
  x &&& 1 = 0

/-- JS `!!(x & sign)` on a possibly-negative `BigInt` `x` with
`sign = 1n << (bits-1)`: the two's-complement sign bit. -/
def signBit (x : Int) (bits : Nat) : Bool :=
  ((x % (2 ^ bits)).toNat).testBit (bits - 1)

def Flags.setArith (f : Flags) (result a b : Int) (bits : Nat) (isSub : Bool) :
    Flags :=
  let mask : Int := 2 ^ bits - 1
  let r := asUintN bits result
  let zf := r = 0
  let sf := r.testBit (bits - 1)
  let cf := result > mask ∨ result < 0
  let sa := signBit a bits
  let sb := signBit b bits
  let sr := r.testBit (bits - 1)
  let of := if isSub then sa ≠ sb ∧ sr ≠ sa else sa = sb ∧ sr ≠ sa
  { f with zf := zf, sf := sf, cf := cf, of := of, pf := Flags.parity r }

def Flags.check (f : Flags) (code : String) : Bool :=
  if code = "o" then f.of
  else if code = "no" then !f.of
  else if code = "s" then f.sf
  else if code = "ns" then !f.sf
  else if code = "e" ∨ code = "z" then f.zf
  else if code = "ne" ∨ code = "nz" then !f.zf
  else if code = "b" ∨ code = "nae" ∨ code = "c" then f.cf
  else if code = "nb" ∨ code = "ae" ∨ code = "nc" then !f.cf
  else if code = "be" ∨ code = "na" then f.cf || f.zf
  else if code = "a" ∨ code = "nbe" then !f.cf && !f.zf
  else if code = "l" ∨ code = "nge" then f.sf != f.of
  else if code = "ge" ∨ code = "nl" then f.sf == f.of
  else if code = "le" ∨ code = "ng" then f.zf || (f.sf != f.of)
  else if code = "g" ∨ code = "nle" then !f.zf && (f.sf == f.of)
  else if code = "p" ∨ code = "pe" then f.pf
  else if code = "np" ∨ code = "po" then !f.pf
  else false

end Sim

/-! ### Paged memory

JS `Memory` keeps a `Map` from 4 KiB-aligned page base to a zero-initialised
`Uint8Array(4096)`.  A page is modelled as a patch list (offset, byte) with
newest write first; an absent entry reads as `0`, exactly the value a
zero-initialised, untouched cell yields.  `pageBase` models
`BigInt(addr) & ~0xFFFn` for the non-negative addresses this code base uses. -/

namespace Sim

structure Memory where
  _pages : List (Nat × List (Nat × Nat))
deriving DecidableEq

def memNew : Memory := ⟨[]⟩

def pageBase (addr : Nat) : Nat := addr / 4096 * 4096

def pageOff (addr : Nat) : Nat := addr % 4096

def patchGet : List (Nat × Nat) → Nat → Nat
  | [], _ => 0
  | (o, b) :: rest, off => if o = off then b else patchGet rest off

def Memory.r8 (m : Memory) (addr : Nat) : Nat :=
  patchGet ((assocGet? m._pages (pageBase addr)).getD []) (pageOff addr)

/-- JS `w8`: `this._page(addr)[addr & 0xFFF] = Number(BigInt(v) & 0xFFn)`. -/
def Memory.w8 (m : Memory) (addr : Nat) (v : Int) : Memory :=
  let page := (assocGet? m._pages (pageBase addr)).getD []
  ⟨assocSet m._pages (pageBase addr) ((pageOff addr, (v % 256).toNat) :: page)⟩

/-- The allocation side effect of JS `_page` (used by `load` to pre-touch
stack pages): inserts an all-zero page when absent. -/
def Memory.touch (m : Memory) (addr : Nat) : Memory :=
  match assocGet? m._pages (pageBase addr) with
  | some _ => m
  | none => ⟨m._pages ++ [(pageBase addr, [])]⟩

def Memory.readLE (m : Memory) (addr bytes : Nat) : Nat :=
  (List.range bytes).foldl (fun v i => v ||| (m.r8 (addr + i) <<< (8 * i))) 0

def Memory.writeLE (m : Memory) (addr : Nat) (val : Int) (bytes : Nat) : Memory :=
  (List.range bytes).foldl (fun mm i => mm.w8 (addr + i) (bigIntShr val (8 * i))) m

/-! ### Operand parser -/

def isHexLower (c : Char) : Bool := ('0' ≤ c ∧ c ≤ '9') ∨ ('a' ≤ c ∧ c ≤ 'f')

def isAlphaChar (c : Char) : Bool := ('a' ≤ c ∧ c ≤ 'z') ∨ ('A' ≤ c ∧ c ≤ 'Z')

def isAlnumChar (c : Char) : Bool := isAlphaChar c ∨ isDigitChar c

/-- Models `parseImm`: after trim + lower-case and an optional leading `-`, accept
`Nh` (`/^([0-9a-f]+)h$/`), `0xN` (`/^0x([0-9a-f]+)$/`) or decimal
(`/^\d+$/`); the three patterns are mutually exclusive, so the source's
sequential overwriting of `v` reduces to this chain. -/
def parseImm (str : String) : Option Int :=
  let s := jsLower (jsTrim str)
  let neg := s.data.head? = some '-'
  let cs := if neg then s.data.drop 1 else s.data
  let v : Option Nat :=
    if cs.length ≥ 2 ∧ cs.getLast? = some 'h' ∧ cs.dropLast.all isHexLower then
      some (hexVal cs.dropLast)
    else if cs.take 2 = ['0', 'x'] ∧ cs.drop 2 ≠ [] ∧ (cs.drop 2).all isHexLower then
      some (hexVal (cs.drop 2))
    else if cs ≠ [] ∧ cs.all isDigitChar then
      some (decVal cs)
    else none
  v.map fun n => if neg then -(n : Int) else (n : Int)

/-- The tokenisation step that rewrites every minus sign to a plus sign
followed by a minus sign, keeping the sign attached to its term. -/
def replaceMinus : List Char → List Char
  | [] => []
  | c :: rest => (if c = '-' then ['+', '-'] else [c]) ++ replaceMinus rest

/-- JS `String.prototype.split('+')`. -/
def splitPlus : List Char → List (List Char)
  | [] => [[]]
  | c :: rest =>
    if c = '+' then [] :: splitPlus rest
    else
      match splitPlus rest with
      | [] => [[c]]
      | t :: ts => (c :: t) :: ts

/-- The scaled-term pattern `/^([a-z][a-z0-9]*)[\*×](\d+)$/i`: split at the
first `*`/`×` (neither group may contain one) and check both groups. -/
def matchScaled (t : List Char) : Option (String × Nat) :=
  match t.findIdx? (fun c => c = '*' ∨ c = '×') with
  | none => none
  | some i =>
    let name := t.take i
    let num := t.drop (i + 1)
    if name ≠ [] ∧ isAlphaChar (name.headD ' ') ∧ (name.drop 1).all isAlnumChar ∧
        num ≠ [] ∧ num.all isDigitChar then
      some (⟨name⟩, decVal num)
    else none

/-- Models `evalAddr`: sum the signed terms, then reduce modulo `2^64`. -/
def evalAddr (expr : String) (regs : Registers) : Nat :=
  let toks := ((splitPlus (replaceMinus expr.data)).map fun t =>
    jsTrim ⟨t⟩).filter fun t => t.data ≠ []
  let result : Int := toks.foldl (fun result tok =>
    let neg := tok.data.head? = some '-'
    let t : String := ⟨if neg then tok.data.drop 1 else tok.data⟩
    match matchScaled t.data with
    | some (name, n) =>
      result + (if neg then -1 else 1) * ((regs.get name : Int) * n)
    | none =>
      if (regInfo (jsLower t)).isSome then
        result + (if neg then -1 else 1) * (regs.get t : Int)
      else
        match parseImm ((if neg then "-" else "") ++ t) with
        | some iv => result + iv
        | none => result) 0
  asUintN 64 result

inductive Operand where
  | mem (bytes : Nat) (addr : Nat)
  | reg (name : String) (bytes : Nat)
  | imm (bytes : Nat) (val : Int)
  | unknown (bytes : Nat)
deriving DecidableEq

def Operand.nbytes : Operand → Nat
  | .mem b _ => b
  | .reg _ b => b
  | .imm b _ => b
  | .unknown b => b

/-- One step of `/^(qword|dword|word|byte)\s+/`: the named width word, at
least one whitespace character, then the maximal whitespace run is
stripped. -/
def widthTry (word : List Char) (cs : List Char) : Option (List Char) :=
  if word.isPrefixOf cs then
    match cs.drop word.length with
    | c :: rest => if isWsChar c then some ((c :: rest).dropWhile isWsChar) else none
    | [] => none
  else none

def parseOp (str : String) (regs : Registers) (defaultBytes : Nat) : Operand :=
  let s := jsLower (jsTrim str)
  let (bytes, cs) :=
    match widthTry "qword".data s.data with
    | some rest => (8, rest)
    | none =>
      match widthTry "dword".data s.data with
      | some rest => (4, rest)
      | none =>
        match widthTry "word".data s.data with
        | some rest => (2, rest)
        | none =>
          match widthTry "byte".data s.data with
          | some rest => (1, rest)
          | none => (defaultBytes, s.data)
  let str : String := ⟨cs⟩
  if cs.head? = some '[' ∧ cs.getLast? = some ']' then
    .mem bytes (evalAddr (jsTrim ⟨(cs.drop 1).dropLast⟩) regs)
  else if (regInfo str).isSome then
    .reg str ((((regInfo str).map fun x => x.2.1).getD 64) >>> 3)
  else
    match parseImm str with
    | some iv => .imm bytes iv
    | none => .unknown bytes

def opRead (o : Operand) (regs : Registers) (mem : Memory) : Int :=
  match o with
  | .mem bytes addr => (mem.readLE addr bytes : Int)
  | .reg name _ => (regs.get name : Int)
  | .imm _ v => v
  | .unknown _ => 0

def opWrite (o : Operand) (v : Int) (regs : Registers) (mem : Memory) :
    Registers × Memory :=
  match o with
  | .mem bytes addr => (regs, mem.writeLE addr v bytes)
  | .reg name _ => (regs.set name v, mem)
  | .imm _ _ => (regs, mem)
  | .unknown _ => (regs, mem)

/-- Models `splitOps`: split on top-level commas (bracket depth 0); intermediate
parts are pushed even when empty, the final part only when non-empty. -/
def splitOpsAux : List Char → Int → List Char → List String
  | [], _, cur =>
    let t := jsTrim ⟨cur.reverse⟩
    if t.data ≠ [] then [t] else []
  | ch :: rest, depth, cur =>
    let depth := if ch = '[' then depth + 1 else if ch = ']' then depth - 1 else depth
    if ch = ',' ∧ depth = 0 then jsTrim ⟨cur.reverse⟩ :: splitOpsAux rest depth []
    else splitOpsAux rest depth (ch :: cur)

def splitOps (str : String) : List String := splitOpsAux str.data 0 []

end Sim

/-! ### The simulator -/

namespace Sim

inductive StepResult where
  | ok (inst : Instruction)
  | error (msg : String) (inst : Option Instruction)
deriving DecidableEq

structure X86Sim where
  bits : Nat
  regs : Registers
  mem : Memory
  flags : Flags
  breakpoints : List String
  _list : List Instruction
  _maxSteps : Nat
deriving DecidableEq

/-- Constructor `new X86Sim(bits)`; `this.bits = bits || 64` maps the absent/zero case
to 64.  `_maxSteps` is assigned 50000 here and — notably — never read
anywhere else in the sources. -/
def x86SimNew (bits : Nat) : X86Sim :=
  { bits := if bits = 0 then 64 else bits
    regs := regsNew
    mem := memNew
    flags := flagsNew
    breakpoints := []
    _list := []
    _maxSteps := 50000 }

/-- Lookup in the `_map` built by `load`: keys are lower-cased addresses and
later list entries overwrite earlier ones, hence the search over the
reversed list. -/
def mapGet (list : List Instruction) (key : String) : Option Instruction :=
  list.reverse.find? fun i => jsLower i.address = key

/-- Models `load(instructions)`; `BigInt(parseInt(...))` throws when the first
instruction's address has no leading hex digits, hence the `Except`. -/
def X86Sim.load (sim : X86Sim) (instructions : List Instruction) :
    Except String X86Sim := do
  let sim := { sim with _list := instructions }
  let sim ← match instructions.head? with
    | some i0 =>
      match jsParseIntHex i0.address with
      | some v => pure { sim with regs := sim.regs.set "rip" (v : Int) }
      | none => throw "Cannot convert NaN to a BigInt"
    | none => pure sim
  let sim := { sim with regs := sim.regs.set "rsp" 0x7fff0000 }
  let sim := (List.range 16).foldl
    (fun s i => { s with mem := s.mem.touch (0x7fff0000 - i * 0x1000) }) sim
  pure sim

def X86Sim.ripAddr (sim : X86Sim) : String :=
  let pad := if sim.bits = 64 then 16 else 8
  "0x" ++ padStartZero (natToHex (sim.regs.get "rip")) pad

def X86Sim.currentInst (sim : X86Sim) : Option Instruction :=
  mapGet sim._list sim.ripAddr

def X86Sim.resolveTarget (sim : X86Sim) (s : String) (db : Nat) : Option Int :=
  let s := jsLower (jsTrim s)
  if (regInfo s).isSome then some (sim.regs.get s : Int)
  else
    match parseImm s with
    | some iv => some iv
    | none =>
      if s.data.head? = some '[' ∧ s.data.getLast? = some ']' then
        some (sim.mem.readLE (evalAddr ⟨(s.data.drop 1).dropLast⟩ sim.regs) db : Int)
      else none

/-- JS `_list.findIndex(i => i.address === inst.address)` followed by
`_list[idx + 1]`; a failed search yields `-1`, so the subsequent access is
`_list[0]`. -/
def X86Sim.findNext (sim : X86Sim) (inst : Instruction) : Option Instruction :=
  match sim._list.findIdx? (fun i => i.address = inst.address) with
  | some idx => sim._list.get? (idx + 1)
  | none => sim._list.get? 0

/-- The `switch` body of `_exec`, after RIP has been advanced to `nextRip`.
Only total code remains at this point (the sole JS throw site in `_exec` is
the `BigInt(parseInt(...))` conversion, handled in `exec?`). -/
def X86Sim.execDispatch (sim : X86Sim) (inst : Instruction) (nextRip : Nat) :
    X86Sim :=
  let mnem := jsTrim (jsLower inst.mnemonic)
  let ops := splitOps inst.operands
  let db := sim.bits >>> 3
  let op := fun (i : Nat) (s : X86Sim) => parseOp (ops.getD i "") s.regs db
  let jmp := fun (s : X86Sim) (t : Option Int) =>
    match t with
    | some a => { s with regs := s.regs.set "rip" a }
    | none => s
  if mnem ∈ ["nop", "int3", "endbr64", "endbr32", "pause"] then sim
  else if mnem ∈ ["mov", "movq", "movl"] then
    let d := op 0 sim
    let s := op 1 sim
    let (regs, mem) := opWrite d (opRead s sim.regs sim.mem) sim.regs sim.mem
    { sim with regs := regs, mem := mem }
  else if mnem ∈ ["movzx"] then
    let d := op 0 sim
    let s := op 1 sim
    let (regs, mem) :=
      opWrite d (asUintN (d.nbytes * 8) (opRead s sim.regs sim.mem) : Int)
        sim.regs sim.mem
    { sim with regs := regs, mem := mem }
  else if mnem ∈ ["movsx", "movsxd"] then
    let d := op 0 sim
    let s := op 1 sim
    let sb := s.nbytes * 8
    let sv := opRead s sim.regs sim.mem
    let ext := if jsAnd sv (2 ^ (sb - 1)) ≠ 0 then jsOr sv (jsNot (2 ^ sb - 1)) else sv
    let (regs, mem) := opWrite d (asUintN (d.nbytes * 8) ext : Int) sim.regs sim.mem
    { sim with regs := regs, mem := mem }
  else if mnem ∈ ["push"] then
    let v := opRead (op 0 sim) sim.regs sim.mem
    let rsp : Int := (sim.regs.get "rsp" : Int) - db
    let regs := sim.regs.set "rsp" rsp
    { sim with regs := regs, mem := sim.mem.writeLE rsp.toNat v db }
  else if mnem ∈ ["pop"] then
    let rsp := sim.regs.get "rsp"
    let (regs, mem) := opWrite (op 0 sim) (sim.mem.readLE rsp db : Int) sim.regs sim.mem
    { sim with regs := regs.set "rsp" ((rsp : Int) + db), mem := mem }
  else if mnem ∈ ["add"] then
    let d := op 0 sim
    let s := op 1 sim
    let bits := d.nbytes * 8
    let a := opRead d sim.regs sim.mem
    let b := opRead s sim.regs sim.mem
    let r := a + b
    let flags := sim.flags.setArith r a b bits false
    let (regs, mem) := opWrite d (asUintN bits r : Int) sim.regs sim.mem
    { sim with regs := regs, mem := mem, flags := flags }
  else if mnem ∈ ["sub"] then
    let d := op 0 sim
    let s := op 1 sim
    let bits := d.nbytes * 8
    let a := opRead d sim.regs sim.mem
    let b := opRead s sim.regs sim.mem
    let r := a - b
    let flags := sim.flags.setArith r a b bits true
    let (regs, mem) := opWrite d (asUintN bits r : Int) sim.regs sim.mem
    { sim with regs := regs, mem := mem, flags := flags }
  else if mnem ∈ ["xor"] then
    let d := op 0 sim
    let s := op 1 sim
    let bits := d.nbytes * 8
    let r := jsXor (opRead d sim.regs sim.mem) (opRead s sim.regs sim.mem)
    let flags := { sim.flags with
      cf := false
      of := false
      zf := (r = 0)
      sf := signBit r bits
      pf := Flags.parity ((r % 256).toNat) }
    let (regs, mem) := opWrite d (asUintN bits r : Int) sim.regs sim.mem
    { sim with regs := regs, mem := mem, flags := flags }
  else if mnem ∈ ["and"] then
    let d := op 0 sim
    let s := op 1 sim
    let bits := d.nbytes * 8
    let r := jsAnd (opRead d sim.regs sim.mem) (opRead s sim.regs sim.mem)
    let flags := { sim.flags with
      cf := false
      of := false
      zf := (r = 0)
      sf := signBit r bits
      pf := Flags.parity ((r % 256).toNat) }
    let (regs, mem) := opWrite d r sim.regs sim.mem
    { sim with regs := regs, mem := mem, flags := flags }
  else if mnem ∈ ["or"] then
    let d := op 0 sim
    let s := op 1 sim
    let bits := d.nbytes * 8
    let r := jsOr (opRead d sim.regs sim.mem) (opRead s sim.regs sim.mem)
    let flags := { sim.flags with
      cf := false
      of := false
      zf := (r = 0)
      sf := signBit r bits }
    let (regs, mem) := opWrite d r sim.regs sim.mem
    { sim with regs := regs, mem := mem, flags := flags }
  else if mnem ∈ ["not"] then
    let d := op 0 sim
    let b := d.nbytes * 8
    let (regs, mem) :=
      opWrite d (asUintN b (jsNot (opRead d sim.regs sim.mem)) : Int) sim.regs sim.mem
    { sim with regs := regs, mem := mem }
  else if mnem ∈ ["neg"] then
    let d := op 0 sim
    let bits := d.nbytes * 8
    let v := opRead d sim.regs sim.mem
    let r := -v
    let flags := { sim.flags with
      cf := (v ≠ 0)
      zf := (asUintN bits r = 0)
      sf := (asUintN bits r).testBit (bits - 1)
      of := (v = (2 ^ (bits - 1) : Int)) }
    let (regs, mem) := opWrite d (asUintN bits r : Int) sim.regs sim.mem
    { sim with regs := regs, mem := mem, flags := flags }
  else if mnem ∈ ["inc"] then
    let d := op 0 sim
    let bits := d.nbytes * 8
    let a := opRead d sim.regs sim.mem
    let r := a + 1
    let (regs, mem) := opWrite d (asUintN bits r : Int) sim.regs sim.mem
    let flags := { sim.flags with
      zf := (asUintN bits r = 0)
      sf := (asUintN bits r).testBit (bits - 1)
      of := (a = (2 ^ (bits - 1) - 1 : Int)) }
    { sim with regs := regs, mem := mem, flags := flags }
  else if mnem ∈ ["dec"] then
    let d := op 0 sim
    let bits := d.nbytes * 8
    let a := opRead d sim.regs sim.mem
    let r := a - 1
    let (regs, mem) := opWrite d (asUintN bits r : Int) sim.regs sim.mem
    let flags := { sim.flags with
      zf := (asUintN bits r = 0)
      sf := (asUintN bits r).testBit (bits - 1)
      of := (a = (2 ^ (bits - 1) : Int)) }
    { sim with regs := regs, mem := mem, flags := flags }
  else if mnem ∈ ["cmp"] then
    let d := op 0 sim
    let s := op 1 sim
    let bits := d.nbytes * 8
    let a := opRead d sim.regs sim.mem
    let b := opRead s sim.regs sim.mem
    { sim with flags := sim.flags.setArith (a - b) a b bits true }
  else if mnem ∈ ["test"] then
    let d := op 0 sim
    let s := op 1 sim
    let bits := d.nbytes * 8
    let r := jsAnd (opRead d sim.regs sim.mem) (opRead s sim.regs sim.mem)
    let flags := { sim.flags with
      cf := false
      of := false
      zf := (r = 0)
      sf := signBit r bits
      pf := Flags.parity ((r % 256).toNat) }
    { sim with flags := flags }
  else if mnem ∈ ["lea"] then
    let d := op 0 sim
    let s0 := jsLower (jsTrim (ops.getD 1 ""))
    let s : List Char :=
      match widthTry "qword".data s0.data with
      | some rest => rest
      | none =>
        match widthTry "dword".data s0.data with
        | some rest => rest
        | none =>
          match widthTry "word".data s0.data with
          | some rest => rest
          | none =>
            match widthTry "byte".data s0.data with
            | some rest => rest
            | none => s0.data
    if s.head? = some '[' ∧ s.getLast? = some ']' then
      let (regs, mem) :=
        opWrite d (evalAddr (jsTrim ⟨(s.drop 1).dropLast⟩) sim.regs : Int)
          sim.regs sim.mem
      { sim with regs := regs, mem := mem }
    else sim
  else if mnem ∈ ["shl", "sal"] then
    let d := op 0 sim
    let s := op 1 sim
    let bits := d.nbytes * 8
    let sh := ((opRead s sim.regs sim.mem) % 64).toNat % bits
    let v := opRead d sim.regs sim.mem
    let cf := if sh > 0 then (jsAnd v (2 ^ (bits - sh)) ≠ 0 : Bool) else sim.flags.cf
    let r := asUintN bits (v * 2 ^ sh)
    let flags := { sim.flags with
      cf := cf
      zf := (r = 0)
      sf := r.testBit (bits - 1) }
    let (regs, mem) := opWrite d (r : Int) sim.regs sim.mem
    { sim with regs := regs, mem := mem, flags := flags }
  else if mnem ∈ ["shr"] then
    let d := op 0 sim
    let s := op 1 sim
    let bits := d.nbytes * 8
    let sh := ((opRead s sim.regs sim.mem) % 64).toNat % bits
    let v := opRead d sim.regs sim.mem
    let cf := if sh > 0 then (jsAnd v (2 ^ (sh - 1)) ≠ 0 : Bool) else sim.flags.cf
    let r := bigIntShr v sh
    let flags := { sim.flags with
      cf := cf
      zf := (r = 0)
      sf := signBit r bits }
    let (regs, mem) := opWrite d r sim.regs sim.mem
    { sim with regs := regs, mem := mem, flags := flags }
  else if mnem ∈ ["sar"] then
    let d := op 0 sim
    let s := op 1 sim
    let bits := d.nbytes * 8
    let sh := ((opRead s sim.regs sim.mem) % 64).toNat % bits
    let v0 := opRead d sim.regs sim.mem
    let v := if jsAnd v0 (2 ^ (bits - 1)) ≠ 0 then jsOr v0 (jsNot (2 ^ bits - 1)) else v0
    let r := asUintN bits (bigIntShr v sh)
    let flags := { sim.flags with
      zf := (r = 0)
      sf := (jsAnd (r : Int) (2 ^ (bits - 1)) ≠ 0) }
    let (regs, mem) := opWrite d (r : Int) sim.regs sim.mem
    { sim with regs := regs, mem := mem, flags := flags }
  else if mnem ∈ ["call"] then
    let mem := sim.mem.writeLE (sim.regs.get "rsp" - db) (nextRip : Int) db
    let regs := sim.regs.set "rsp" ((sim.regs.get "rsp" : Int) - db)
    let sim := { sim with regs := regs, mem := mem }
    jmp sim (sim.resolveTarget (ops.getD 0 "") db)
  else if mnem ∈ ["ret", "retn", "retq"] then
    let rsp := sim.regs.get "rsp"
    let ret := sim.mem.readLE rsp db
    let sim := { sim with regs := sim.regs.set "rsp" ((rsp : Int) + db) }
    jmp sim (some (ret : Int))
  else if mnem ∈ ["jmp"] then
    jmp sim (sim.resolveTarget (ops.getD 0 "") db)
  else
    -- default branch: conditional jumps dispatch on the mnemonic's suffix
    if mnem.data.head? = some 'j' then
      let code : String := ⟨mnem.data.drop 1⟩
      if sim.flags.check code then jmp sim (sim.resolveTarget (ops.getD 0 "") db)
      else sim
    else sim

def X86Sim.exec? (sim : X86Sim) (inst : Instruction) : Except String X86Sim := do
  let nextRip ← match sim.findNext inst with
    | some nx =>
      match jsParseIntHex nx.address with
      | some v => pure v
      | none => throw "Cannot convert NaN to a BigInt"
    | none => pure (sim.regs.get "rip")
  let sim := { sim with regs := sim.regs.set "rip" (nextRip : Int) }
  pure (sim.execDispatch inst nextRip)

/-- Models `step()`: the only JS throw site inside `_exec` precedes every state
mutation, so an errored step leaves the simulator unchanged. -/
def X86Sim.step (sim : X86Sim) : X86Sim × StepResult :=
  match sim.currentInst with
  | none => (sim, .error ("RIP at unmapped address: " ++ sim.ripAddr) none)
  | some inst =>
    match sim.exec? inst with
    | .ok s2 => (s2, .ok inst)
    | .error e => (sim, .error e (some inst))

def X86Sim.reset (sim : X86Sim) (instructions : List Instruction) :
    Except String X86Sim :=
  ({ sim with regs := regsNew, mem := memNew, flags := flagsNew }).load instructions

end Sim

/-! ## Frontend debugger run loop (`dbgRun` in the main frontend file).

`tick()` performs a batch of up to 100 `step()` calls, stopping early on an
error result or when the new RIP is a breakpoint, and otherwise re-schedules
itself via `setTimeout`; `steps` counts the `step()` calls performed.  The
model makes each `tick` invocation explicit (`runTicks k` = `k` scheduler
turns). -/

namespace Dbg

structure RunState where
  sim : Sim.X86Sim
  bpAddrs : List String
  simRunning : Bool
  steps : Nat
deriving DecidableEq

def runBatch : Nat → RunState → RunState
  | 0, rs => rs
  | n + 1, rs =>
    let (s2, r) := rs.sim.step
    match r with
    | .error _ _ => { rs with sim := s2, simRunning := false, steps := rs.steps + 1 }
    | .ok _ =>
      let rs := { rs with sim := s2, steps := rs.steps + 1 }
      if rs.bpAddrs.contains s2.ripAddr then { rs with simRunning := false }
      else runBatch n rs

def dbgTick (rs : RunState) : RunState :=
  if rs.simRunning then runBatch 100 rs else rs

def runTicks : Nat → RunState → RunState
  | 0, rs => rs
  | k + 1, rs => if rs.simRunning then runTicks k (runBatch 100 rs) else rs

end Dbg

/-! ## PE parser: the section-table loop -/

namespace PE

/-- Node `buffer.readUInt16LE(off)` on a byte list. -/
def readUInt16LE (buf : List Nat) (off : Nat) : Nat :=
  buf.getD off 0 + buf.getD (off + 1) 0 * 256

/-- Node `buffer.readUInt32LE(off)` on a byte list. -/
def readUInt32LE (buf : List Nat) (off : Nat) : Nat :=
  buf.getD off 0 + buf.getD (off + 1) 0 * 256 +
  buf.getD (off + 2) 0 * 65536 + buf.getD (off + 3) 0 * 16777216

def SECTION_FLAGS : List (Nat × String) :=
  [(0x00000020, "CODE"), (0x00000040, "INIT_DATA"), (0x00000080, "UNINIT_DATA"),
   (0x20000000, "EXEC"), (0x40000000, "READ"), (0x80000000, "WRITE")]

def parseSectionFlags (flags : Nat) : String :=
  let parts := (SECTION_FLAGS.filter fun p => flags &&& p.1 ≠ 0).map (·.2)
  if parts = [] then "0x" ++ natToHex flags
  else String.intercalate "|" parts

/-- Node `buf.toString('ascii')` maps every byte through `byte & 0x7F`;
`replace(/\0+$/, '')` strips trailing NUL characters. -/
def sectionName (nameBytes : List Nat) : String :=
  ⟨(nameBytes.map fun b => Char.ofNat (b % 128)).reverse.dropWhile
    (fun c => c = Char.ofNat 0) |>.reverse⟩

structure PESection where
  name : String
  virtualAddress : Nat
  virtualSize : Nat
  rawOffset : Nat
  rawSize : Nat
  flags : Nat
  flagsStr : String
  isCode : Bool
deriving DecidableEq

/-- The `for (let i = 0; i < numSections; i++)` section loop of `parsePE`
(remaining iteration count drives the recursion; the bounds check models
the `break`).  `isCode` is the source's `!!(flags & 0x20000020)`. -/
def parsePESections (buffer : List Nat) (sectionTableBase : Nat) :
    Nat → Nat → List PESection
  | 0, _ => []
  | k + 1, i =>
    let off := sectionTableBase + i * 40
    if off + 40 > buffer.length then []
    else
      let nameBytes := (buffer.drop off).take 8
      let name := sectionName nameBytes
      let virtualSize := readUInt32LE buffer (off + 8)
      let virtualAddress := readUInt32LE buffer (off + 12)
      let sizeOfRawData := readUInt32LE buffer (off + 16)
      let pointerToRawData := readUInt32LE buffer (off + 20)
      let flags := readUInt32LE buffer (off + 36)
      { name := name
        virtualAddress := virtualAddress
        virtualSize := virtualSize
        rawOffset := pointerToRawData
        rawSize := sizeOfRawData
        flags := flags
        flagsStr := parseSectionFlags flags
        isCode := (flags &&& 0x20000020 ≠ 0) } :: parsePESections buffer sectionTableBase k (i + 1)

end PE

/-! ## Cross-reference analyzer -/

namespace Xref

def CALL_SET : List String := ["call"]
def JMP_SET : List String := ["jmp"]
def JCC_SET : List String :=
  ["jo","jno","js","jns","je","jne","jz","jnz",
   "jb","jnae","jc","jnb","jae","jnc","jbe","jna",
   "ja","jnbe","jl","jnge","jge","jnl","jle","jng",
   "jg","jnle","jp","jpe","jnp","jpo",
   "jcxz","jecxz","jrcxz","loop","loope","loopne"]

/-- Models `parseTarget(operands, bits)`: NASM `NNNNh` form (case-insensitive hex
digits followed by `h` or `H`) or `0x`-prefix form, normalised to `0x` plus
lowercase hex zero-padded to `bits/4` nibbles; `none` for everything else
(indirect/register/symbol operands). -/
def parseTarget (operands : String) (bits : Nat) : Option String :=
  if operands.data = [] then none
  else
    let pad := if bits = 64 then 16 else 8
    let cs := operands.data
    if cs.length ≥ 2 ∧ (cs.getLast? = some 'h' ∨ cs.getLast? = some 'H') ∧
        cs.dropLast.all isHexChar then
      some ("0x" ++ padStartZero (natToHex (hexVal cs.dropLast)) pad)
    else if (cs.take 2 = ['0', 'x'] ∨ cs.take 2 = ['0', 'X']) ∧
        cs.drop 2 ≠ [] ∧ (cs.drop 2).all isHexChar then
      some ("0x" ++ padStartZero (natToHex (hexVal (cs.drop 2))) pad)
    else none

structure XrefEntry where
  from_ : String      -- JS field `from` (a Lean keyword)
  type_ : String      -- JS field `type`: "call" | "jmp" | "jcc"
deriving DecidableEq

/-- Insert into the xrefs object: push onto an existing key's array, else
create the key (insertion order preserved, as for JS object keys). -/
def xrefsAdd : List (String × List XrefEntry) → String → XrefEntry →
    List (String × List XrefEntry)
  | [], k, e => [(k, [e])]
  | (k', es) :: rest, k, e =>
    if k' = k then (k', es ++ [e]) :: rest else (k', es) :: xrefsAdd rest k e

def buildXrefs (instructions : List Instruction) (bits : Nat) :
    List (String × List XrefEntry) :=
  instructions.foldl (fun xrefs inst =>
    let mnem := jsTrim (jsLower inst.mnemonic)
    let type? : Option String :=
      if mnem ∈ CALL_SET then some "call"
      else if mnem ∈ JMP_SET then some "jmp"
      else if mnem ∈ JCC_SET then some "jcc"
      else none
    match type? with
    | none => xrefs
    | some ty =>
      match parseTarget (jsTrim inst.operands) bits with
      | none => xrefs
      | some target => xrefsAdd xrefs target ⟨inst.address, ty⟩) []

end Xref

/-! ## Function detection and byte signatures -/

namespace Sigs

def END_MNEMS : List String := ["ret", "retn", "retq", "retf", "ud2", "hlt"]

/-- JS `address.replace(/^0x0*/, '') || '0'`. -/
def stripLabel (address : String) : String :=
  let cs := address.data
  let cs := if cs.take 2 = ['0', 'x'] then (cs.drop 2).dropWhile (fun c => c = '0') else cs
  if cs = [] then "0" else ⟨cs⟩

/-- Models `detectFunctions`: returns the `Map<address, label>` as an
insertion-ordered association list. -/
def detectFunctions (instructions : List Instruction) : List (String × String) :=
  (instructions.foldl (fun acc inst =>
    let (funcs, atBoundary) := acc
    let mnem := jsTrim (jsLower inst.mnemonic)
    let funcs :=
      if atBoundary ∧ mnem ≠ "int3" then
        assocSet funcs inst.address ("sub_" ++ stripLabel inst.address)
      else funcs
    let atBoundary := if atBoundary ∧ mnem ≠ "int3" then false else atBoundary
    let atBoundary := if mnem ∈ END_MNEMS ∨ mnem = "int3" then true else atBoundary
    (funcs, atBoundary)) ([], true)).1

def BYTE_SIGS : List (List Nat × String × String) :=
  [([0xf3, 0xaa], "rep stosb", "byte memset"),
   ([0xf3, 0xab], "rep stosd", "dword memset"),
   ([0xf3, 0xa4], "rep movsb", "byte memcpy"),
   ([0xf3, 0xa5], "rep movsd", "dword memcpy"),
   ([0x0f, 0x05], "syscall", "Linux syscall"),
   ([0xcd, 0x80], "int 80h", "Linux int 0x80"),
   ([0xff, 0x25], "jmp [IAT]", "Indirect jump (import)"),
   ([0xff, 0x15], "call [IAT]", "Indirect call (import)")]

def matchesAt (buf sig : List Nat) (i : Nat) : Bool :=
  (List.range sig.length).all fun j => buf.getD (i + j) 0x100 = sig.getD j 0

/-- The inner scan loop `for (let i = 0; i < limit - sig.bytes.length; i++)`
with the `i += sig.bytes.length - 1` advance on a hit.  `fuel` starts at
`limit`; `i` strictly increases each call and the guard is false once
`i ≥ limit - sig.length`, so `limit` units of fuel always suffice. -/
def scanSig (buf sig : List Nat) (limit : Nat) : Nat → Nat → List Nat
  | 0, _ => []
  | fuel + 1, i =>
    if i < limit - sig.length then
      if matchesAt buf sig i then i :: scanSig buf sig limit fuel (i + sig.length)
      else scanSig buf sig limit fuel (i + 1)
    else []

structure SigHit where
  address : String
  name : String
  note : String
deriving DecidableEq

def matchByteSignatures (codeBuffer : List Nat) (baseVA : Nat) (bits : Nat) :
    List SigHit :=
  let pad := if bits = 64 then 16 else 8
  let limit := min codeBuffer.length (1024 * 1024)
  BYTE_SIGS.flatMap fun sig =>
    (scanSig codeBuffer sig.1 limit limit 0).map fun i =>
      { address := "0x" ++ padStartZero (natToHex (baseVA + i)) pad
        name := sig.2.1
        note := sig.2.2 }

end Sigs

/-! ## Analysis assembly in `analyzeFile` (stage 5): cross-references and
function labels are skipped entirely when the disassembly fell back to the
hex dump. -/

namespace Analyzer

def analysisFor (disasmFallback : Bool) (instructions : List Instruction)
    (bits : Nat) : List (String × List Xref.XrefEntry) × List (String × String) :=
  (if disasmFallback then [] else Xref.buildXrefs instructions bits,
   if disasmFallback then [] else Sigs.detectFunctions instructions)

end Analyzer

/-! ## CFG builder (graph renderer source file) -/

namespace Graph

def JMP_END : List String := ["jmp", "ret", "retn", "retq", "retf", "ud2", "hlt"]

def JCC_ALL : List String :=
  ["je","jne","jz","jnz","jg","jge","jl","jle","ja","jae","jb","jbe",
   "jp","jnp","jo","jno","js","jns","jcxz","jecxz","jrcxz"]

/-- The graph module's `parseTarget(op, bits)`: like the xref analyzer's
but trims the operand itself. -/
def parseTarget (op : String) (bits : Nat) : Option String :=
  if op.data = [] then none
  else Xref.parseTarget (jsTrim op) bits

def isEnder (inst : Instruction) : Bool :=
  let m := jsTrim (jsLower inst.mnemonic)
  m ∈ JMP_END ∨ m ∈ JCC_ALL ∨ m = "call"

/-- Step 1 of `buildCFG`: the `starts` set, as the list of addresses added
to it (membership is what the set is consulted for). -/
def startsLoop (bits : Nat) : List Instruction → List String
  | [] => []
  | inst :: rest =>
    (if isEnder inst then
      (match rest.head? with
       | some nx => [nx.address]
       | none => []) ++
      (match parseTarget inst.operands bits with
       | some t => [t]
       | none => [])
     else []) ++ startsLoop bits rest

def cfgStarts (instructions : List Instruction) (bits : Nat) : List String :=
  match instructions with
  | [] => []
  | i0 :: _ => i0.address :: startsLoop bits instructions

structure Succ where
  to_ : String       -- JS field `to` (a Lean keyword)
  type_ : String     -- "fall" | "jump"
deriving DecidableEq

structure Block where
  id : String
  insts : List Instruction
  succs : List Succ
deriving DecidableEq

/-- Step 2 of `buildCFG`: partition the linear stream at `starts`
addresses (`cur` is the block being grown). -/
def blocksLoop (starts : List String) : List Instruction → Option Block → List Block
  | [], cur =>
    (match cur with
     | some c => [c]
     | none => [])
  | inst :: rest, cur =>
    if inst.address ∈ starts then
      (match cur with
       | some c => [c]
       | none => []) ++ blocksLoop starts rest (some ⟨inst.address, [inst], []⟩)
    else
      match cur with
      | some c => blocksLoop starts rest (some { c with insts := c.insts ++ [inst] })
      | none => blocksLoop starts rest none

/-- Step 3 of `buildCFG`: successor edges for one block (`bmap.has` is
membership among the block ids). -/
def addEdges (instructions : List Instruction) (bits : Nat) (ids : List String)
    (block : Block) : Block :=
  match block.insts.getLast? with
  | none => block
  | some last =>
    let m := jsTrim (jsLower last.mnemonic)
    let nextAddr : Option String :=
      match instructions.findIdx? (fun i => i.address = last.address) with
      | some li => (instructions.get? (li + 1)).map (·.address)
      | none => (instructions.get? 0).map (·.address)
    let fallSuccs : List Succ :=
      match nextAddr with
      | some na => if na ∈ ids then [⟨na, "fall"⟩] else []
      | none => []
    let jumpSuccs : List Succ :=
      match parseTarget last.operands bits with
      | some t => if t ∈ ids then [⟨t, "jump"⟩] else []
      | none => []
    if m ∈ JCC_ALL then { block with succs := fallSuccs ++ jumpSuccs }
    else if m = "jmp" then { block with succs := jumpSuccs }
    else if m ∈ JMP_END then block
    else { block with succs := fallSuccs }

def buildCFG (instructions : List Instruction) (bits : Nat) : List Block :=
  match instructions with
  | [] => []
  | _ =>
    let starts := cfgStarts instructions bits
    let blocks := blocksLoop starts instructions none
    let ids := blocks.map (·.id)
    blocks.map (addEdges instructions bits ids)

end Graph

deriving instance DecidableEq for Except

/-! ## Fixtures -/

/-- The end-to-end scenario stream at `0x401000` (64-bit canonical
addresses, NASM operand dialect). -/
def c2i1 : Instruction := ⟨"0x0000000000401000", "b8 05 00 00 00", "mov", "eax, 5"⟩

def c2i2 : Instruction := ⟨"0x0000000000401005", "83 c0 03", "add", "eax, 3"⟩

def c2i3 : Instruction := ⟨"0x0000000000401008", "c3", "ret", ""⟩

def c2prog : List Instruction := [c2i1, c2i2, c2i3]

/-- Freshly constructed interpreter with the scenario stream loaded (the
`load` of this fixture succeeds; the fallback arm is never taken). -/
def c2sim0 : Sim.X86Sim :=
  match (Sim.x86SimNew 64).load c2prog with
  | .ok s => s
  | .error _ => Sim.x86SimNew 64

/-- The scenario's precondition: `0xdead` pre-written at `mem[rsp]`. -/
def c2simIn : Sim.X86Sim :=
  { c2sim0 with mem := c2sim0.mem.writeLE (c2sim0.regs.get "rsp") 0xdead 8 }

def c2s1 : Sim.X86Sim := (c2simIn.step).1

def c2s2 : Sim.X86Sim := (c2s1.step).1

def c2s3 : Sim.X86Sim := (c2s2.step).1

/-- A single instruction with a mnemonic outside the implemented subset. -/
def c4inst : Instruction := ⟨"0x0000000000401000", "f7 e1", "mul", "ecx"⟩

def c4sim : Sim.X86Sim :=
  match (Sim.x86SimNew 64).load [c4inst] with
  | .ok s => s
  | .error _ => Sim.x86SimNew 64

/-- A tight self-loop: `jmp` back to its own address, forever. -/
def c3inst : Instruction := ⟨"0x0000000000401000", "eb fe", "jmp", "401000h"⟩

def c3sim : Sim.X86Sim :=
  match (Sim.x86SimNew 64).load [c3inst] with
  | .ok s => s
  | .error _ => Sim.x86SimNew 64

/-- One 40-byte PE section-table entry named `.text` whose characteristics
word is `0x20000000`: `IMAGE_SCN_MEM_EXECUTE` set, `IMAGE_SCN_CNT_CODE`
clear. -/
def c5buf : List Nat :=
  [0x2e, 0x74, 0x65, 0x78, 0x74, 0, 0, 0] ++ List.replicate 28 0 ++
  [0x00, 0x00, 0x00, 0x20]

/-- The xref-resolution fixture instruction list. -/
def c7insts : List Instruction :=
  [⟨"0x00000100", "", "call", "401000h"⟩,
   ⟨"0x00000105", "", "jne", "0x401010"⟩,
   ⟨"0x0000010a", "", "jmp", "rax"⟩]

/-- A conditional jump written with the `jnae` synonym, followed by a
`nop`. -/
def c8insts : List Instruction :=
  [⟨"0x00000100", "", "jnae", "0x00000110"⟩,
   ⟨"0x00000105", "", "nop", ""⟩]

/-- The same shape with the recognised spelling `jne`. -/
def c8insts2 : List Instruction :=
  [⟨"0x00000100", "", "jne", "0x00000105"⟩,
   ⟨"0x00000105", "", "nop", ""⟩]

/-! ## C2: end-to-end scenario -/

/-- C2: loading `{mov eax,5 @0x401000; add eax,3 @0x401005; ret @0x401008}`
into a freshly reset interpreter with `0xdead` pre-written at `mem[rsp]`
and stepping exactly three times yields `eax = 8`, `rip = 0xdead`,
`rsp = rsp0 + 8` (one 64-bit word), and flags after the `add` of
`zf = sf = cf = of = pf = 0`. -/
theorem c2_end_to_end :
    (Sim.x86SimNew 64).load c2prog = .ok c2sim0 ∧
    (c2simIn.step).2 = .ok c2i1 ∧
    (c2s1.step).2 = .ok c2i2 ∧
    (c2s2.step).2 = .ok c2i3 ∧
    c2s3.regs.get "eax" = 8 ∧
    c2s3.regs.get "rip" = 0xdead ∧
    c2s3.regs.get "rsp" = 0x7fff0000 + 8 ∧
    c2s2.flags.zf = false ∧ c2s2.flags.sf = false ∧ c2s2.flags.cf = false ∧
    c2s2.flags.of = false ∧ c2s2.flags.pf = false := by
  decide

/-! ## C6: byte-signature scan -/

/-- C6: on the buffer `F3 AA 90 F3 AB` (base VA `0x400000`, 32-bit) the
scanner reports only `rep stosb @ 0x00400000`; the `rep stosd` whose last
byte is the final byte of the region is missed, because the loop bound is
`i < limit - pattern_length` instead of `i ≤ limit - pattern_length`. -/
theorem c6_scan_misses_final_byte :
    Sigs.matchByteSignatures [0xF3, 0xAA, 0x90, 0xF3, 0xAB] 0x400000 32 =
      [⟨"0x00400000", "rep stosb", "byte memset"⟩] := by
  decide

/-! ## C7: xref-resolution fixture -/

/-- C7: the xref builder on the fixture list returns exactly the map
`{0x00401000 ↦ [{from 0x00000100, call}], 0x00401010 ↦ [{from 0x00000105,
jcc}]}`; the indirect `jmp rax` contributes nothing, and targets are
zero-padded to `bits/4 = 8` nibbles. -/
theorem c7_xref_fixture :
    Xref.buildXrefs c7insts 32 =
      [("0x00401000", [⟨"0x00000100", "call"⟩]),
       ("0x00401010", [⟨"0x00000105", "jcc"⟩])] := by
  decide

/-! ## C9: fallback disassembly skips the analysis stage -/

/-- C9: whenever the disassembly stage fell back to the hex dump, the
report's `analysis.xrefs` and `analysis.funcLabels` are both empty — the
builders are never run over the hex rows. -/
theorem c9_fallback_skips_analysis (instructions : List Instruction) (bits : Nat) :
    Analyzer.analysisFor true instructions bits = ([], []) := rfl

/-! ## C3: the run loop has no step cap -/

/-- Stepping the self-loop leaves the simulator state unchanged and
succeeds. -/
theorem c3_step_fixed : c3sim.step = (c3sim, .ok c3inst) := by decide

/-- A batch of the run loop over a stuck (fixed-point) simulator state with
no breakpoint at its RIP just counts steps and keeps running. -/
theorem runBatch_fixed (s : Sim.X86Sim) (inst : Instruction) (bps : List String)
    (hstep : s.step = (s, .ok inst)) (hbp : bps.contains s.ripAddr = false) :
    ∀ n k, Dbg.runBatch n ⟨s, bps, true, k⟩ = ⟨s, bps, true, k + n⟩ := by
  intro n
  induction n with
  | zero => intro k; rfl
  | succ n ih =>
    intro k
    rw [Dbg.runBatch]
    simp only [hstep, hbp, Bool.false_eq_true, if_false, ih]
    congr 1
    omega

theorem runTicks_fixed (s : Sim.X86Sim) (inst : Instruction) (bps : List String)
    (hstep : s.step = (s, .ok inst)) (hbp : bps.contains s.ripAddr = false) :
    ∀ t k, Dbg.runTicks t ⟨s, bps, true, k⟩ = ⟨s, bps, true, k + 100 * t⟩ := by
  intro t
  induction t with
  | zero => intro k; simp [Dbg.runTicks]
  | succ t ih =>
    intro k
    rw [Dbg.runTicks, if_pos rfl, runBatch_fixed s inst bps hstep hbp, ih]
    congr 1
    omega

/-- C3 fails on the code: running the self-loop program with no
breakpoints for 501 scheduler ticks executes 50,100 steps — beyond the
claimed 50,000-step cap — and the run loop is still going (`_maxSteps` is
assigned in the constructor but never consulted by `dbgRun`'s `tick`). -/
theorem c3_run_exceeds_cap :
    (Dbg.runTicks 501 ⟨c3sim, [], true, 0⟩).steps = 50100 ∧
    (Dbg.runTicks 501 ⟨c3sim, [], true, 0⟩).simRunning = true ∧
    50100 > c3sim._maxSteps := by
  rw [runTicks_fixed c3sim c3inst [] c3_step_fixed (by decide)]
  refine ⟨rfl, rfl, by decide⟩

/-! ## C4: stepping an unsupported mnemonic -/

/-- The interpreter's implemented instruction subset: every mnemonic with a
dedicated `switch` case in `_exec`, together with the conditional-jump
spellings the default branch recognises through `flags.check`. -/
def implementedMnems : List String :=
  ["nop", "int3", "endbr64", "endbr32", "pause",
   "mov", "movq", "movl", "movzx", "movsx", "movsxd",
   "push", "pop", "add", "sub", "xor", "and", "or", "not", "neg",
   "inc", "dec", "cmp", "test", "lea", "shl", "sal", "shr", "sar",
   "call", "ret", "retn", "retq", "jmp",
   "jo", "jno", "js", "jns", "je", "jz", "jne", "jnz",
   "jb", "jnae", "jc", "jnb", "jae", "jnc", "jbe", "jna",
   "ja", "jnbe", "jl", "jnge", "jge", "jnl", "jle", "jng",
   "jg", "jnle", "jp", "jpe", "jnp", "jpo"]

/-- C4 fails on the code: with RIP at the unsupported `mul` instruction,
`step()` returns `{ok, inst}` — the default `switch` branch silently
ignores any non-`j` mnemonic instead of raising a trap. -/
theorem c4_counterexample :
    (c4sim.step).2 = .ok c4inst ∧
    c4sim.currentInst = some c4inst ∧
    jsTrim (jsLower c4inst.mnemonic) ∉ implementedMnems := by
  decide

/-- C4 (amended): stepping an instruction whose mnemonic is outside the
implemented subset returns the structured success `{ok, inst}` (every
branch of `_exec` past the next-RIP computation is total; the only error
results `step()` can produce are an unmapped RIP and a failed address
conversion for the following instruction). -/
theorem c4_unsupported_mnemonic_ok (sim : Sim.X86Sim) (inst : Instruction)
    (hcur : sim.currentInst = some inst)
    (_hmnem : jsTrim (jsLower inst.mnemonic) ∉ implementedMnems)
    (hnext : ((sim.findNext inst).map fun nx =>
        (jsParseIntHex nx.address).isSome).getD true = true) :
    (sim.step).2 = .ok inst := by
  rw [Sim.X86Sim.step, hcur]
  cases hfn : sim.findNext inst with
  | none =>
    simp only [Sim.X86Sim.exec?, hfn]
    rfl
  | some nx =>
    rw [hfn] at hnext
    cases hpi : jsParseIntHex nx.address with
    | none => simp [hpi] at hnext
    | some v =>
      simp only [Sim.X86Sim.exec?, hfn, hpi]
      rfl

/-- Witness for the amended C4 at the concrete `mul` fixture. -/
theorem c4_unsupported_mnemonic_ok_witness :
    (c4sim.step).2 = .ok c4inst :=
  c4_unsupported_mnemonic_ok c4sim c4inst (by decide) (by decide) (by decide)

/-! ## C5: `is_code` in the PE section parser -/

/-- C5 fails on the code: a section with only `IMAGE_SCN_MEM_EXECUTE`
(`flags = 0x20000000`, so `flags & 0x20000020 ≠ 0x20000020`) still gets
`is_code = true`, because the source computes the truthiness
`!!(flags & 0x20000020)` rather than comparing against the full mask. -/
theorem c5_counterexample :
    (PE.parsePESections c5buf 0 1 0).map (fun s => (s.flags, s.isCode)) =
      [(0x20000000, true)] ∧
    ¬((0x20000000 : Nat) &&& 0x20000020 = 0x20000020) := by
  decide

/-- C5 (amended): for every section entry produced by the PE section-table
loop, `is_code` is true iff `flags & 0x20000020 ≠ 0`, i.e. iff at least one
of `IMAGE_SCN_CNT_CODE` and `IMAGE_SCN_MEM_EXECUTE` is set. -/
theorem c5_is_code_iff_any_bit (buffer : List Nat) (base : Nat) :
    ∀ (k i : Nat) (s : PE.PESection), s ∈ PE.parsePESections buffer base k i →
      (s.isCode = true ↔ s.flags &&& 0x20000020 ≠ 0) := by
  intro k
  induction k with
  | zero =>
    intro i s hs
    simp [PE.parsePESections] at hs
  | succ k ih =>
    intro i s hs
    rw [PE.parsePESections] at hs
    split at hs
    · simp at hs
    · rcases List.mem_cons.mp hs with h | h
      · subst h
        simp
      · exact ih (i + 1) s h

/-- Witness for the amended C5 at the EXEC-only fixture entry. -/
theorem c5_is_code_iff_any_bit_witness :
    ((⟨".text", 0, 0, 0, 0, 0x20000000, "EXEC", true⟩ : PE.PESection).isCode = true ↔
      (⟨".text", 0, 0, 0, 0, 0x20000000, "EXEC", true⟩ : PE.PESection).flags
        &&& 0x20000020 ≠ 0) :=
  c5_is_code_iff_any_bit c5buf 0 1 0
    ⟨".text", 0, 0, 0, 0, 0x20000000, "EXEC", true⟩ (by decide)

/-! ## C8: block starts in the CFG builder -/

/-- C8 fails on the code: `jnae` belongs to the specification's closed Jcc
set, yet the instruction after it does not begin a basic block — the graph
module's `JCC_ALL` omits the `jnae/jc/jnb/jnc/jna/jnbe/jnge/jnl/jng/jnle/
jpe/jpo` synonyms and the `loop` family. -/
theorem c8_counterexample :
    ((c8insts.get? 0).map (·.mnemonic) = some "jnae") ∧
    ((c8insts.get? 1).map (·.address) = some "0x00000105") ∧
    "0x00000105" ∉ (Graph.buildCFG c8insts 32).map (·.id) ∧
    "0x00000105" ∉ Graph.cfgStarts c8insts 32 ∧
    (Graph.buildCFG c8insts 32).map (fun b => b.insts.length) = [2] := by
  decide

theorem startsLoop_next_mem (bits : Nat) :
    ∀ (l : List Instruction) (i : Nat) (inst nxt : Instruction),
      l.get? i = some inst → l.get? (i + 1) = some nxt →
      Graph.isEnder inst = true → nxt.address ∈ Graph.startsLoop bits l := by
  intro l
  induction l with
  | nil => intro i inst nxt h; simp at h
  | cons a rest ih =>
    intro i inst nxt hi hnx hE
    cases i with
    | zero =>
      simp only [List.get?] at hi hnx
      cases hi
      rw [Graph.startsLoop, if_pos hE]
      have hh : rest.head? = some nxt := by rw [← List.get?_zero]; exact hnx
      rw [hh]
      exact List.mem_append_left _ (List.mem_append_left _ (List.mem_singleton.mpr rfl))
    | succ i =>
      simp only [List.get?] at hi hnx
      rw [Graph.startsLoop]
      exact List.mem_append_right _ (ih i inst nxt hi hnx hE)

theorem startsLoop_target_mem (bits : Nat) :
    ∀ (l : List Instruction) (i : Nat) (inst : Instruction) (t : String),
      l.get? i = some inst → Graph.parseTarget inst.operands bits = some t →
      Graph.isEnder inst = true → t ∈ Graph.startsLoop bits l := by
  intro l
  induction l with
  | nil => intro i inst t h; simp at h
  | cons a rest ih =>
    intro i inst t hi ht hE
    cases i with
    | zero =>
      simp only [List.get?] at hi
      cases hi
      rw [Graph.startsLoop, if_pos hE, ht]
      refine List.mem_append_left _ (List.mem_append_right _ ?_)
      exact List.mem_singleton.mpr rfl
    | succ i =>
      simp only [List.get?] at hi
      rw [Graph.startsLoop]
      exact List.mem_append_right _ (ih i inst t hi ht hE)

theorem blocksLoop_cur_id (starts : List String) :
    ∀ (l : List Instruction) (c : Graph.Block),
      c.id ∈ (Graph.blocksLoop starts l (some c)).map (·.id) := by
  intro l
  induction l with
  | nil => intro c; simp [Graph.blocksLoop]
  | cons a rest ih =>
    intro c
    rw [Graph.blocksLoop.eq_def]
    simp only
    by_cases hmem : a.address ∈ starts
    · rw [if_pos hmem]
      simp only [List.map_append]
      exact List.mem_append_left _ (by simp)
    · rw [if_neg hmem]
      exact ih _

theorem blocksLoop_start_mem (starts : List String) :
    ∀ (l : List Instruction) (cur : Option Graph.Block) (inst : Instruction),
      inst ∈ l → inst.address ∈ starts →
      inst.address ∈ (Graph.blocksLoop starts l cur).map (·.id) := by
  intro l
  induction l with
  | nil => intro cur inst h; simp at h
  | cons a rest ih =>
    intro cur inst hmem hstart
    rcases List.mem_cons.mp hmem with rfl | hmem
    · rw [Graph.blocksLoop.eq_def]
      simp only
      rw [if_pos hstart]
      simp only [List.map_append]
      exact List.mem_append_right _ (blocksLoop_cur_id starts rest _)
    · rw [Graph.blocksLoop.eq_def]
      simp only
      by_cases ha : a.address ∈ starts
      · rw [if_pos ha]
        simp only [List.map_append]
        exact List.mem_append_right _ (ih _ inst hmem hstart)
      · rw [if_neg ha]
        cases cur with
        | some c => exact ih _ inst hmem hstart
        | none => exact ih _ inst hmem hstart

theorem addEdges_id (instructions : List Instruction) (bits : Nat)
    (ids : List String) (b : Graph.Block) :
    (Graph.addEdges instructions bits ids b).id = b.id := by
  rw [Graph.addEdges]
  cases b.insts.getLast? with
  | none => rfl
  | some last =>
    simp only
    split
    · rfl
    · split
      · rfl
      · split
        · rfl
        · rfl

theorem buildCFG_ids (instructions : List Instruction) (bits : Nat) :
    (Graph.buildCFG instructions bits).map (·.id) =
      (Graph.blocksLoop (Graph.cfgStarts instructions bits) instructions none).map
        (·.id) := by
  cases instructions with
  | nil => rfl
  | cons a rest =>
    rw [Graph.buildCFG.eq_def]
    simp only [List.map_map]
    exact List.map_congr_left fun b _ => addEdges_id _ _ _ b

/-- C8 (amended): in the CFG builder, for every instruction whose
lower-cased, trimmed mnemonic is in `JMP_END ∪ JCC_ALL ∪ {call}` — where
`JCC_ALL` is the set the source actually recognises
(`je jne jz jnz jg jge jl jle ja jae jb jbe jp jnp jo jno js jns jcxz
jecxz jrcxz`; the synonym spellings and the `loop` family are not in it) —
the immediately following instruction begins a basic block, and the
resolvable direct target is marked as a block start (and begins a basic
block whenever it is the address of an instruction of the stream). -/
theorem c8_block_boundaries (instructions : List Instruction) (bits : Nat)
    (i : Nat) (inst : Instruction)
    (hi : instructions.get? i = some inst)
    (hm : jsTrim (jsLower inst.mnemonic) ∈ Graph.JMP_END ∨
          jsTrim (jsLower inst.mnemonic) ∈ Graph.JCC_ALL ∨
          jsTrim (jsLower inst.mnemonic) = "call") :
    (∀ nxt, instructions.get? (i + 1) = some nxt →
        nxt.address ∈ (Graph.buildCFG instructions bits).map (·.id)) ∧
    (∀ t, Graph.parseTarget inst.operands bits = some t →
        t ∈ Graph.cfgStarts instructions bits ∧
        ∀ inst2, inst2 ∈ instructions → inst2.address = t →
          t ∈ (Graph.buildCFG instructions bits).map (·.id)) := by
  have hE : Graph.isEnder inst = true := by
    simp only [Graph.isEnder, decide_eq_true_eq]
    exact hm
  have hstarts : ∀ x, x ∈ Graph.startsLoop bits instructions →
      x ∈ Graph.cfgStarts instructions bits := by
    cases instructions with
    | nil => intro x hx; simp [Graph.startsLoop] at hx
    | cons a rest =>
      intro x hx
      show x ∈ a.address :: Graph.startsLoop bits (a :: rest)
      exact List.mem_cons_of_mem _ hx
  constructor
  · intro nxt hnx
    have h1 : nxt.address ∈ Graph.cfgStarts instructions bits :=
      hstarts _ (startsLoop_next_mem bits instructions i inst nxt hi hnx hE)
    rw [buildCFG_ids]
    exact blocksLoop_start_mem _ instructions none nxt (List.get?_mem hnx) h1
  · intro t ht
    have h1 : t ∈ Graph.cfgStarts instructions bits :=
      hstarts _ (startsLoop_target_mem bits instructions i inst t hi ht hE)
    refine ⟨h1, ?_⟩
    intro inst2 hmem2 haddr
    rw [buildCFG_ids]
    have := blocksLoop_start_mem (Graph.cfgStarts instructions bits) instructions
      none inst2 hmem2 (haddr ▸ h1)
    rwa [haddr] at this

/-- Witness for the amended C8 at the two-instruction `jne` fixture. -/
theorem c8_block_boundaries_witness :
    (∀ nxt, c8insts2.get? (0 + 1) = some nxt →
        nxt.address ∈ (Graph.buildCFG c8insts2 32).map (·.id)) ∧
    (∀ t, Graph.parseTarget
          (⟨"0x00000100", "", "jne", "0x00000105"⟩ : Instruction).operands 32 =
            some t →
        t ∈ Graph.cfgStarts c8insts2 32 ∧
        ∀ inst2, inst2 ∈ c8insts2 → inst2.address = t →
          t ∈ (Graph.buildCFG c8insts2 32).map (·.id)) :=
  c8_block_boundaries c8insts2 32 0 ⟨"0x00000100", "", "jne", "0x00000105"⟩
    (by decide) (by decide)

/-! ## C1: sub-register write semantics -/

theorem assocGet?_assocSet_self {κ α : Type} [DecidableEq κ] :
    ∀ (l : List (κ × α)) (k : κ) (v : α), assocGet? (assocSet l k v) k = some v := by
  intro l k v
  induction l with
  | nil => simp [assocSet, assocGet?]
  | cons hd tl ih =>
    rw [assocSet]
    by_cases h : hd.1 = k
    · rw [if_pos h, assocGet?, if_pos h]
    · rw [if_neg h, assocGet?, if_neg h]
      exact ih

theorem raw_assocSet (l : List (String × Nat)) (p : String) (v : Nat) :
    Sim.Registers.raw ⟨assocSet l p v⟩ p = v := by
  rw [Sim.Registers.raw, assocGet?_assocSet_self]
  rfl

theorem regInfo_mem (name : String) (r : String × Nat × Nat)
    (h : Sim.regInfo name = some r) : r ∈ Sim.regTable.map (·.2) := by
  rw [Sim.regInfo] at h
  cases hf : Sim.regTable.find? (fun row => row.1 = name) with
  | none => rw [hf] at h; simp at h
  | some row =>
    rw [hf] at h
    simp at h
    subst h
    exact List.mem_map_of_mem _ (List.mem_of_find?_eq_some hf)

theorem regTable_w32_shift :
    ∀ r ∈ Sim.regTable.map (·.2), r.2.1 = 32 → r.2.2 = 0 := by decide

theorem regTable_slice_inside :
    ∀ r ∈ Sim.regTable.map (·.2), r.2.2 + r.2.1 ≤ 64 := by decide

/-- The 32-bit write value: clear-then-or, followed by the 32-bit mask. -/
theorem write32_eq (a m : Nat) (hm : m < 2 ^ 32) :
    ((a &&& ((2 ^ 64 - 1) ^^^ ((2 ^ 32 - 1) <<< 0))) ||| (m <<< 0)) &&& (2 ^ 32 - 1)
      = m := by
  apply Nat.eq_of_testBit_eq
  intro j
  simp only [Nat.shiftLeft_zero, Nat.testBit_and, Nat.testBit_or, Nat.testBit_xor,
    Nat.testBit_two_pow_sub_one]
  by_cases hj : j < 32
  · have hj64 : j < 64 := by omega
    simp [hj, hj64]
  · have hmj : m.testBit j = false :=
      Nat.testBit_lt_two_pow
        (lt_of_lt_of_le hm (Nat.pow_le_pow_right (by norm_num) (by omega)))
    simp [hj, hmj]

/-- A narrow write (slice `[s, s+w)` inside the 64-bit slot) leaves every
bit outside the slice unchanged. -/
theorem writeNarrow_testBit (a m w s : Nat) (hsw : s + w ≤ 64) (ha : a < 2 ^ 64)
    (hm : m < 2 ^ w) (i : Nat) (hi : i < s ∨ s + w ≤ i) :
    ((a &&& ((2 ^ 64 - 1) ^^^ ((2 ^ w - 1) <<< s))) ||| (m <<< s)).testBit i
      = a.testBit i := by
  simp only [Nat.testBit_and, Nat.testBit_or, Nat.testBit_xor,
    Nat.testBit_shiftLeft, Nat.testBit_two_pow_sub_one]
  by_cases hi64 : i < 64
  · have houter : ¬ (s ≤ i ∧ i - s < w) := by omega
    by_cases hs : s ≤ i
    · have hw : ¬ (i - s < w) := fun hc => houter ⟨hs, hc⟩
      have hmi : m.testBit (i - s) = false :=
        Nat.testBit_lt_two_pow
          (lt_of_lt_of_le hm (Nat.pow_le_pow_right (by norm_num) (by omega)))
      simp [hi64, hs, hw, hmi]
    · simp [hi64, hs]
  · have hai : a.testBit i = false :=
      Nat.testBit_lt_two_pow
        (lt_of_lt_of_le ha (Nat.pow_le_pow_right (by norm_num) (by omega)))
    by_cases hs : s ≤ i
    · have hmi : m.testBit (i - s) = false :=
        Nat.testBit_lt_two_pow
          (lt_of_lt_of_le hm (Nat.pow_le_pow_right (by norm_num) (by omega)))
      simp [hi64, hs, hai, hmi]
    · simp [hi64, hs, hai]

theorem asUintN_lt (bits : Nat) (v : Int) : asUintN bits v < 2 ^ bits := by
  rw [asUintN]
  have h1 : (0 : Int) < 2 ^ bits := by positivity
  have h3 := Int.emod_nonneg v (by positivity : (2 : Int) ^ bits ≠ 0)
  rw [Int.toNat_lt h3]
  calc v % (2 ^ bits) < 2 ^ bits := Int.emod_lt_of_pos v h1
    _ = ((2 ^ bits : Nat) : Int) := by push_cast; ring

/-- C1: writing a 32-bit sub-register zero-extends into the full 64-bit
parent slot (the parent becomes exactly the written value modulo `2^32`,
upper half zero), while a 16-bit or 8-bit sub-register write (low or high)
leaves every parent bit outside the written slice unchanged — for every
reachable prior parent value (reachable values are below `2^64`) and every
written value. -/
theorem c1_subregister_writes (rs : Sim.Registers) (name : String) (v : Int)
    (p : String) (w s : Nat)
    (hinfo : Sim.regInfo (jsLower name) = some (p, w, s))
    (hb : rs.raw p < 2 ^ 64) :
    (w = 32 → (rs.set name v).raw p = (v % (2 ^ 32)).toNat) ∧
    ((w = 16 ∨ w = 8) → ∀ i, i < s ∨ s + w ≤ i →
      ((rs.set name v).raw p).testBit i = (rs.raw p).testBit i) := by
  have hrow := regInfo_mem _ _ hinfo
  have hsw : s + w ≤ 64 := regTable_slice_inside _ hrow
  rw [Sim.Registers.set]
  simp only [hinfo]
  constructor
  · intro hw
    subst hw
    have hs0 : s = 0 := regTable_w32_shift _ hrow rfl
    subst hs0
    rw [if_pos rfl, raw_assocSet]
    exact write32_eq _ _ (asUintN_lt 32 v)
  · intro hw i hi
    have hne : w ≠ 32 := by rcases hw with h | h <;> omega
    rw [if_neg hne, raw_assocSet]
    exact writeNarrow_testBit _ _ w s hsw hb (asUintN_lt w v) i hi

/-- A register file with a distinctive parent value, for the C1 witness. -/
def c1rs : Sim.Registers := Sim.regsNew.set "rax" 0x123456789abcdef0

/-- Witness for C1: the 32-bit case at `eax` and the high-8-bit case at
`ah`, over the concrete parent value `0x123456789abcdef0`. -/
theorem c1_subregister_writes_witness :
    ((32 = 32 → (c1rs.set "eax" 0x1ff).raw "rax" = ((0x1ff : Int) % (2 ^ 32)).toNat) ∧
     ((32 = 16 ∨ 32 = 8) → ∀ i, i < 0 ∨ 0 + 32 ≤ i →
       ((c1rs.set "eax" 0x1ff).raw "rax").testBit i = (c1rs.raw "rax").testBit i)) ∧
    ((8 = 32 → (c1rs.set "ah" 0x1ff).raw "rax" = ((0x1ff : Int) % (2 ^ 32)).toNat) ∧
     ((8 = 16 ∨ 8 = 8) → ∀ i, i < 8 ∨ 8 + 8 ≤ i →
       ((c1rs.set "ah" 0x1ff).raw "rax").testBit i = (c1rs.raw "rax").testBit i)) :=
  ⟨c1_subregister_writes c1rs "eax" 0x1ff "rax" 32 0 (by decide) (by decide),
   c1_subregister_writes c1rs "ah" 0x1ff "rax" 8 8 (by decide) (by decide)⟩

/-! ## C10: little-endian memory round trip -/

theorem assocGet?_assocSet_ne {κ α : Type} [DecidableEq κ] (k' k : κ)
    (hne : k' ≠ k) :
    ∀ (l : List (κ × α)) (v : α), assocGet? (assocSet l k v) k' = assocGet? l k' := by
  intro l v
  induction l with
  | nil => simp [assocSet, assocGet?, Ne.symm hne]
  | cons hd tl ih =>
    rw [assocSet]
    by_cases h : hd.1 = k
    · rw [if_pos h, assocGet?, assocGet?]
      have : hd.1 ≠ k' := by rw [h]; exact fun hc => hne hc.symm
      rw [if_neg this, if_neg this]
    · rw [if_neg h, assocGet?, assocGet?]
      by_cases h2 : hd.1 = k'
      · rw [if_pos h2, if_pos h2]
      · rw [if_neg h2, if_neg h2, ih]

theorem addr_eq_of_base_off {a b : Nat} (h1 : Sim.pageBase a = Sim.pageBase b)
    (h2 : Sim.pageOff a = Sim.pageOff b) : a = b := by
  simp only [Sim.pageBase, Sim.pageOff] at h1 h2
  omega

theorem r8_w8_same (m : Sim.Memory) (a : Nat) (v : Int) :
    (m.w8 a v).r8 a = ((v % 256)).toNat := by
  rw [Sim.Memory.w8, Sim.Memory.r8]
  simp only
  rw [assocGet?_assocSet_self]
  simp [Sim.patchGet]

theorem r8_w8_ne (m : Sim.Memory) (a b : Nat) (v : Int) (hne : b ≠ a) :
    (m.w8 b v).r8 a = m.r8 a := by
  rw [Sim.Memory.w8, Sim.Memory.r8, Sim.Memory.r8]
  simp only
  by_cases hp : Sim.pageBase b = Sim.pageBase a
  · rw [← hp, assocGet?_assocSet_self]
    have hoff : Sim.pageOff b ≠ Sim.pageOff a := by
      intro h
      exact hne (addr_eq_of_base_off hp h)
    rw [Option.getD_some, Sim.patchGet, if_neg hoff, hp]
  · rw [assocGet?_assocSet_ne _ _ (fun h => hp h.symm)]

theorem writeLE_succ (m : Sim.Memory) (a : Nat) (v : Int) (n : Nat) :
    m.writeLE a v (n + 1) = (m.writeLE a v n).w8 (a + n) (bigIntShr v (8 * n)) := by
  rw [Sim.Memory.writeLE, Sim.Memory.writeLE, List.range_succ, List.foldl_append]
  rfl

theorem readLE_succ (m : Sim.Memory) (a : Nat) (n : Nat) :
    m.readLE a (n + 1) = m.readLE a n ||| (m.r8 (a + n) <<< (8 * n)) := by
  rw [Sim.Memory.readLE, Sim.Memory.readLE, List.range_succ, List.foldl_append]
  rfl

theorem writeLE_r8 (v : Int) (a : Nat) :
    ∀ (n : Nat) (m : Sim.Memory) (i : Nat), i < n →
      (m.writeLE a v n).r8 (a + i) = ((bigIntShr v (8 * i)) % 256).toNat := by
  intro n
  induction n with
  | zero => intro m i h; omega
  | succ n ih =>
    intro m i hi
    rw [writeLE_succ]
    by_cases h : i = n
    · subst h
      rw [r8_w8_same]
    · rw [r8_w8_ne _ _ _ _ (by omega : a + n ≠ a + i)]
      exact ih m i (by omega)

theorem lor_shl_eq_add (A B k : Nat) (hA : A < 2 ^ k) :
    A ||| (B <<< k) = B * 2 ^ k + A := by
  apply Nat.eq_of_testBit_eq
  intro j
  rw [Nat.testBit_or, Nat.testBit_shiftLeft, Nat.mul_comm B (2 ^ k),
    Nat.testBit_mul_pow_two_add B hA j]
  by_cases hj : j < k
  · have : ¬ (k ≤ j) := by omega
    simp [hj, this]
  · have hk : k ≤ j := by omega
    have hAj : A.testBit j = false :=
      Nat.testBit_lt_two_pow
        (lt_of_lt_of_le hA (Nat.pow_le_pow_right (by norm_num) hk))
    simp [hj, hk, hAj]

theorem emod_mul_256_decomp (v M : Int) (hM : 0 < M) :
    v % (M * 256) = v % M + (v / M % 256) * M := by
  have hMne : M ≠ 0 := by omega
  have h256 : (0 : Int) < M * 256 := by positivity
  set R := v % (M * 256) with hR
  have hR0 : 0 ≤ R := Int.emod_nonneg v (by omega)
  have hRlt : R < M * 256 := Int.emod_lt_of_pos v h256
  have hv : v = M * 256 * (v / (M * 256)) + R := by
    rw [hR]
    exact (Int.ediv_add_emod v (M * 256)).symm
  have hmod : v % M = R % M := by
    conv_lhs => rw [hv]
    rw [show M * 256 * (v / (M * 256)) + R = R + 256 * (v / (M * 256)) * M by ring]
    exact Int.add_mul_emod_self
  have hdiv : v / M = R / M + 256 * (v / (M * 256)) := by
    conv_lhs => rw [hv]
    rw [show M * 256 * (v / (M * 256)) + R = R + 256 * (v / (M * 256)) * M by ring]
    exact Int.add_mul_ediv_right _ _ hMne
  have hsmall : R / M < 256 := by
    rw [Int.ediv_lt_iff_lt_mul hM]
    linarith [hRlt]
  have hdiv0 : 0 ≤ R / M := Int.ediv_nonneg hR0 (by omega)
  have hmod2 : v / M % 256 = R / M := by
    rw [hdiv, Int.add_mul_emod_self_left, Int.emod_eq_of_lt hdiv0 hsmall]
  rw [hmod, hmod2]
  have hfinal := Int.emod_add_ediv' R M
  linarith [hfinal]

theorem readLE_reconstruct (v : Int) (a : Nat) :
    ∀ (n : Nat) (m : Sim.Memory),
      (∀ i, i < n → m.r8 (a + i) = ((bigIntShr v (8 * i)) % 256).toNat) →
      m.readLE a n = (v % (2 ^ (8 * n))).toNat := by
  intro n
  induction n with
  | zero =>
    intro m _
    simp [Sim.Memory.readLE, Int.emod_one]
  | succ n ih =>
    intro m hb
    rw [readLE_succ, ih m (fun i hi => hb i (by omega)), hb n (by omega)]
    have hApos : (0 : Int) ≤ v % (2 ^ (8 * n)) :=
      Int.emod_nonneg v (by positivity)
    have hBpos : (0 : Int) ≤ bigIntShr v (8 * n) % 256 :=
      Int.emod_nonneg _ (by norm_num)
    have hA : (v % (2 ^ (8 * n))).toNat < 2 ^ (8 * n) := by
      rw [Int.toNat_lt hApos]
      calc v % (2 ^ (8 * n)) < 2 ^ (8 * n) := Int.emod_lt_of_pos v (by positivity)
        _ = ((2 ^ (8 * n) : Nat) : Int) := by push_cast; ring
    rw [lor_shl_eq_add _ _ _ hA]
    have hcast :
        (((bigIntShr v (8 * n) % 256).toNat * 2 ^ (8 * n) +
          (v % (2 ^ (8 * n))).toNat : Nat) : Int) = v % (2 ^ (8 * (n + 1))) := by
      push_cast
      rw [Int.toNat_of_nonneg hApos, Int.toNat_of_nonneg hBpos]
      rw [bigIntShr, Int.fdiv_eq_ediv _ (by positivity)]
      rw [show 8 * (n + 1) = 8 * n + 8 by ring, pow_add]
      rw [show ((2 : Int) ^ (8 * n) * 2 ^ 8) = 2 ^ (8 * n) * 256 by norm_num]
      rw [emod_mul_256_decomp v (2 ^ (8 * n)) (by positivity)]
      ring
    have h0 : (0 : Int) ≤ v % (2 ^ (8 * (n + 1))) :=
      Int.emod_nonneg v (by positivity)
    omega

theorem r8_memNew (x : Nat) : Sim.memNew.r8 x = 0 := rfl

theorem readLE_memNew (a : Nat) : ∀ n : Nat, Sim.memNew.readLE a n = 0 := by
  intro n
  induction n with
  | zero => rfl
  | succ n ih =>
    rw [readLE_succ, ih, r8_memNew]
    simp

/-- C10: interpreter memory is a little-endian read-after-write round
trip — for every starting memory, 64-bit address, value `v` and byte count
`n ∈ {1,2,4,8}`, `writeLE(a, v, n)` followed by `readLE(a, n)` yields
`v mod 2^(8n)` (page-boundary-spanning accesses included, since the bytes
are addressed individually), and a fresh memory reads `0` everywhere
(pages are zero-initialised on first touch). -/
theorem c10_memory_roundtrip (m : Sim.Memory) (a : Nat) (v : Int) (n : Nat)
    (_hn : n = 1 ∨ n = 2 ∨ n = 4 ∨ n = 8) :
    (((m.writeLE a v n).readLE a n : Nat) : Int) = v % (2 ^ (8 * n)) ∧
    (∀ a2 k, Sim.memNew.readLE a2 k = 0) := by
  constructor
  · have h := readLE_reconstruct v a n (m.writeLE a v n)
      (fun i hi => writeLE_r8 v a n m i hi)
    rw [h, Int.toNat_of_nonneg (Int.emod_nonneg v (by positivity))]
  · exact fun a2 k => readLE_memNew a2 k

/-- Witness for C10: an 8-byte write at `0xFFA` (spanning the first page
boundary) of a negative value. -/
theorem c10_memory_roundtrip_witness :
    ((((Sim.memNew.writeLE 0xFFA (-123456789) 8).readLE 0xFFA 8 : Nat) : Int) =
      (-123456789 : Int) % (2 ^ (8 * 8))) ∧
    (∀ a2 k, Sim.memNew.readLE a2 k = 0) :=
  c10_memory_roundtrip Sim.memNew 0xFFA (-123456789) 8 (by decide)
